import Mathlib

/-
Verification of the raxio term-rewriting interpreter (src/lexer.rs,
src/parser.rs, src/runtime.rs, src/error.rs, src/main.rs) against its
natural-language specification.

The data model is embedded from src/parser.rs: an expression is either a
Functor with a head identifier and an ordered argument list, or a Variable
leaf carrying a name and an optional parser-side depth marker
(`depth: Option<usize>` in the source).  The rewrite engine and session
machine are embedded from src/runtime.rs.  The source returns
`Result<_, Box<dyn Error>>` from the engine functions; the embedding keeps
that shape as `Except String _` (no error value is ever constructed by the
engine itself; only the file write can fail, which is modelled by an
explicit write oracle).
-/

namespace Raxio

/-- Expression tree, from src/parser.rs lines 5-9.  `Variable` carries the
name and the optional parser-side depth marker. -/
inductive Expr where
  | Functor (iden : String) (args : List Expr)
  | Variable (iden : String) (depth : Option Nat)
deriving Repr

mutual

/-- Structural equality on expressions, mirroring the derived
`PartialEq`/`Eq` of the source `Expr` (all fields participate, the depth
marker included). -/
def Expr.decEq : (a b : Expr) → Decidable (a = b)
  | .Functor i1 as1, .Functor i2 as2 =>
    if h : i1 = i2 then
      match Expr.decEqList as1 as2 with
      | isTrue h2 => isTrue (by rw [h, h2])
      | isFalse h2 => isFalse (fun hh => by injection hh with hi ha; exact h2 ha)
    else isFalse (fun hh => by injection hh with hi ha; exact h hi)
  | .Variable i1 d1, .Variable i2 d2 =>
    if h : i1 = i2 ∧ d1 = d2 then isTrue (by rw [h.1, h.2])
    else isFalse (fun hh => by injection hh with hi hd; exact h ⟨hi, hd⟩)
  | .Functor _ _, .Variable _ _ => isFalse (fun hh => Expr.noConfusion hh)
  | .Variable _ _, .Functor _ _ => isFalse (fun hh => Expr.noConfusion hh)
termination_by structural a _ => a

/-- Structural equality on expression lists. -/
def Expr.decEqList : (a b : List Expr) → Decidable (a = b)
  | [], [] => isTrue rfl
  | [], _ :: _ => isFalse (fun hh => List.noConfusion hh)
  | _ :: _, [] => isFalse (fun hh => List.noConfusion hh)
  | a :: as, b :: bs =>
    match Expr.decEq a b with
    | isTrue h1 =>
      match Expr.decEqList as bs with
      | isTrue h2 => isTrue (by rw [h1, h2])
      | isFalse h2 => isFalse (fun hh => by injection hh with hx hy; exact h2 hy)
    | isFalse h1 => isFalse (fun hh => by injection hh with hx hy; exact h1 hx)
termination_by structural a _ => a

end

instance : DecidableEq Expr := Expr.decEq

/-- Binary-operator sugar table, from `Expr::get_binary_operator_str` in
src/parser.rs lines 124-132. -/
def get_binary_operator_str (iden : String) : Option String :=
  match iden with
  | "add" => some "+"
  | "sub" => some "-"
  | "mul" => some "*"
  | "div" => some "/"
  | _ => none

mutual

/-- Pretty printer, from the inherent method `Expr::to_string` in
src/parser.rs lines 95-122: a Variable with a depth marker prints as
"name depth n", a plain Variable prints as its name, a binary-operator
functor of arity 2 prints infix, a "group" functor prints as a
parenthesised list, any other functor prints head-prefix. -/
def Expr.to_string : Expr → String
  | .Variable iden (some n) => iden ++ " depth " ++ toString n
  | .Variable iden none => iden
  | .Functor iden [a, b] =>
    match get_binary_operator_str iden with
    | some op => a.to_string ++ " " ++ op ++ " " ++ b.to_string
    | none =>
      (if iden = "group" then "(" else iden ++ "(") ++ Expr.args_to_string [a, b] ++ ")"
  | .Functor iden args =>
    (if iden = "group" then "(" else iden ++ "(") ++ Expr.args_to_string args ++ ")"
termination_by structural e => e

/-- The argument-joining loop of `Expr::to_string`: arguments separated by
", " with no trailing separator. -/
def Expr.args_to_string : List Expr → String
  | [] => ""
  | [a] => a.to_string
  | a :: b :: rest => a.to_string ++ ", " ++ Expr.args_to_string (b :: rest)
termination_by structural l => l

end

/-- The binding table `HashMap<Expr, Expr>` of src/runtime.rs, modelled as an
association list; `insert` overwrites an existing equal key, `get` compares
keys with the structural equality of `Expr` (which includes the depth
marker, as the derived `PartialEq`/`Hash` of the source do). -/
def tableInsert : List (Expr × Expr) → Expr → Expr → List (Expr × Expr)
  | [], k, v => [(k, v)]
  | (k', v') :: rest, k, v =>
    if k' = k then (k, v) :: rest else (k', v') :: tableInsert rest k v

/-- Lookup in the binding table by full structural equality of keys. -/
def tableGet : List (Expr × Expr) → Expr → Option Expr
  | [], _ => none
  | (k', v') :: rest, k => if k' = k then some v' else tableGet rest k

mutual

/-- The body of the loop of `fill_pattern_mapping` in src/runtime.rs lines
259-285, processing one (pattern argument, subject argument) pair: a
pattern Variable binds the whole pattern node to the subject argument
(overwriting on collision) and the loop continues; a pattern Functor
against a subject Variable fails the whole match; two Functors recurse into
their argument lists when heads and arities agree and fail otherwise.  The
Bool says whether the loop may continue; the table carries the insertions
made so far. -/
def fill_pattern_one : Expr → Expr → List (Expr × Expr) →
    Bool × List (Expr × Expr)
  | .Variable li ld, cur_arg, t => (true, tableInsert t (.Variable li ld) cur_arg)
  | .Functor _ _, .Variable _ _, t => (false, t)
  | .Functor lhs_iden lhs_args, .Functor cur_iden cur_args, t =>
    if cur_iden = lhs_iden ∧ cur_args.length = lhs_args.length then
      fill_pattern_mapping cur_args lhs_args t
    else (false, t)
termination_by structural l _ _ => l

/-- From `fill_pattern_mapping` in src/runtime.rs lines 257-288: walk the
zipped pattern/subject argument lists in order, threading the table; the
first failing pair aborts with the table filled so far. -/
def fill_pattern_mapping : List Expr → List Expr → List (Expr × Expr) →
    Bool × List (Expr × Expr)
  | _, [], t => (true, t)
  | [], _ :: _, t => (true, t)
  | cur_arg :: cur_rest, lhs_arg :: lhs_rest, t =>
    match fill_pattern_one lhs_arg cur_arg t with
    | (true, t') => fill_pattern_mapping cur_rest lhs_rest t'
    | (false, t') => (false, t')
termination_by structural _ l _ => l

end

mutual

/-- From `construct_rhs` in src/runtime.rs lines 292-319: a Variable node of
the template is looked up in the table as a whole node; when present the
image is returned, otherwise the source rebuilds the variable from its name
alone (`Expr::Variable { iden: iden.clone() }`, supplying no depth marker).
A Functor maps the substitution over its arguments. -/
def construct_rhs : Expr → List (Expr × Expr) → Except String Expr
  | .Variable iden d, args_table =>
    match tableGet args_table (.Variable iden d) with
    | some new_arg => .ok new_arg
    | none => .ok (.Variable iden none)
  | .Functor iden args, args_table =>
    match construct_rhs_list args args_table with
    | .ok new_args => .ok (.Functor iden new_args)
    | .error e => .error e
termination_by structural e _ => e

/-- The argument loop of `construct_rhs`, propagating the first error. -/
def construct_rhs_list : List Expr → List (Expr × Expr) →
    Except String (List Expr)
  | [], _ => .ok []
  | a :: rest, args_table =>
    match construct_rhs a args_table with
    | .error e => .error e
    | .ok r =>
      match construct_rhs_list rest args_table with
      | .error e => .error e
      | .ok rs => .ok (r :: rs)
termination_by structural l _ => l

end

/-- From `match_patterns` in src/runtime.rs lines 187-253, by case on
(subject, pattern):
Variable vs Variable compares names only; on equality a clone of the
template is returned, otherwise the source rebuilds the subject variable
from its name alone (`Expr::Variable { iden: current }`).
Functor vs Functor requires equal heads and arities, fills the binding
table and substitutes into the template on success, returning the subject
unchanged otherwise.
Variable vs Functor returns the subject unchanged.
Functor vs Variable maps once over the immediate arguments: a Variable
argument whose name equals the pattern name becomes a clone of the
template; any other Variable argument is rebuilt from its name alone
(`Expr::Variable { iden }`); Functor arguments are kept as-is. -/
def match_patterns (current_expr left right : Expr) : Except String Expr :=
  match current_expr, left with
  | .Variable current _, .Variable lhs _ =>
    if current = lhs then .ok right else .ok (.Variable current none)
  | .Functor current_iden current_args, .Functor lhs_iden lhs_args =>
    if current_iden = lhs_iden ∧ current_args.length = lhs_args.length then
      match fill_pattern_mapping current_args lhs_args [] with
      | (true, args_table) => construct_rhs right args_table
      | (false, _) => .ok (.Functor current_iden current_args)
    else .ok (.Functor current_iden current_args)
  | .Variable current d, .Functor _ _ => .ok (.Variable current d)
  | .Functor current_iden current_args, .Variable lhs_iden _ =>
    .ok (.Functor current_iden (current_args.map (fun arg =>
      match arg with
      | .Variable iden _ => if iden = lhs_iden then right else .Variable iden none
      | .Functor i as => .Functor i as)))

mutual

/-- From `ast_traverse_match` in src/runtime.rs lines 163-185: at depth 0
run the matcher at the current node; at positive depth a Variable is
returned unchanged and a Functor rebuilds the same head over the traversal
of each argument at depth - 1, left to right. -/
def ast_traverse_match (current_expr left right : Expr) (depth : Nat) :
    Except String Expr :=
  if depth = 0 then
    match_patterns current_expr left right
  else
    match current_expr with
    | .Variable i d => .ok (.Variable i d)
    | .Functor iden args =>
      match ast_traverse_match_list args left right (depth - 1) with
      | .ok new_args => .ok (.Functor iden new_args)
      | .error e => .error e
termination_by structural current_expr

/-- The argument loop of `ast_traverse_match`, propagating the first
error. -/
def ast_traverse_match_list (args : List Expr) (left right : Expr)
    (depth : Nat) : Except String (List Expr) :=
  match args with
  | [] => .ok []
  | a :: rest =>
    match ast_traverse_match a left right depth with
    | .error e => .error e
    | .ok e =>
      match ast_traverse_match_list rest left right depth with
      | .error e => .error e
      | .ok es => .ok (e :: es)
termination_by structural args

end

/-- Warnings, from the `Warning` enum in src/error.rs lines 67-74. -/
inductive Warning where
  | ExprHasNoEffect
  | ApplyRuleNoEffect
  | InLineRuleNoEffect
  | EndStmtHasNoEffect
  | RuleDoesNotExist (s : String)
deriving DecidableEq, Repr

/-- Statements.  `RuleStmt`, `DefineStmt`, `ExprStmt` and `EndStmt` are the
variants of the `Stmt` enum declared in src/parser.rs lines 11-17.
`ApplyStmt` is the apply statement consumed by `Env::interpret` in
src/runtime.rs lines 76 and 87; its declaration is not part of the `Stmt`
enum in src/parser.rs, so this variant is Modelled from the spec: the
statement `Apply(name, d)` applying the named rule at depth `d`. -/
inductive Stmt where
  | RuleStmt (left right : Expr) (depth : Nat)
  | DefineStmt (iden : String) (left right : Expr)
  | ExprStmt (e : Expr)
  | ApplyStmt (iden : String) (depth : Nat)
  | EndStmt (path : Option String)
deriving DecidableEq, Repr

/-- The rule table `HashMap<String, (Expr, Expr)>` of src/runtime.rs,
modelled as an association list with overwriting insert. -/
def rulesInsert : List (String × (Expr × Expr)) → String → Expr × Expr →
    List (String × (Expr × Expr))
  | [], k, v => [(k, v)]
  | (k', v') :: rest, k, v =>
    if k' = k then (k, v) :: rest else (k', v') :: rulesInsert rest k v

/-- Rule-table lookup by name. -/
def rulesGet : List (String × (Expr × Expr)) → String → Option (Expr × Expr)
  | [], _ => none
  | (k', v') :: rest, k => if k' = k then some v' else rulesGet rest k

/-- Session state, from the `Env` struct in src/runtime.rs lines 6-21. -/
structure Env where
  history : List Expr
  derivation_history : List (Expr × Expr × Nat)
  is_matching : Bool
  rules : List (String × (Expr × Expr))
  warnings : List Warning
deriving DecidableEq, Repr

/-- Initial state, from `Env::new` in src/runtime.rs lines 24-32. -/
def Env.new : Env :=
  { history := []
    derivation_history := []
    is_matching := false
    rules := []
    warnings := [] }

/-- From `Env::get_expr` in src/runtime.rs lines 42-48: the last element of
the history, if any. -/
def Env.get_expr (env : Env) : Option Expr :=
  if env.history.length = 0 then none
  else env.history.get? (env.history.length - 1)

/-- The `self.get_expr().unwrap()` idiom of src/runtime.rs; the default is
never reached at any call site because the history is non-empty whenever
the session is matching. -/
def Env.get_expr_unwrap (env : Env) : Expr :=
  (env.get_expr).getD (.Variable "" none)

/-- From `Env::pop_expr` in src/runtime.rs lines 60-66 (the REPL `undo`
command): when more than one expression is in the history, pop the last
entry of both the history and the derivation history; otherwise do
nothing. -/
def Env.pop_expr (env : Env) : Env :=
  if env.history.length > 1 then
    { env with
        history := env.history.dropLast
        derivation_history := env.derivation_history.dropLast }
  else env

/-- The entry-building loop of `Env::write_to_file` in src/runtime.rs lines
136-152: history entries after the anchor are zipped with the derivation
entries (enumerated from 0, printed as i+1) and rendered as
newline, number, ". Applying rule: L => R at depth d, results in:",
newline, four spaces, the expression, newline. -/
def transcript_entries : Nat → List Expr → List (Expr × Expr × Nat) → String
  | _, _, [] => ""
  | _, [], _ :: _ => ""
  | i, e :: es, (lhs, rhs, depth) :: ds =>
    "\n" ++ toString (i + 1) ++ ". Applying rule: " ++ lhs.to_string ++ " => "
      ++ rhs.to_string ++ " at depth " ++ toString depth ++ ", results in:\n    "
      ++ e.to_string ++ "\n"
      ++ transcript_entries (i + 1) es ds

/-- The transcript string `data` built by `Env::write_to_file` in
src/runtime.rs lines 134-157: the start line for `history[0]`, the zipped
entries, then a final line with the current (last) expression.  The source
unwraps `history.get(0)`; the empty-history case is never reached because
the write happens only while matching. -/
def transcript (env : Env) : String :=
  match env.history with
  | [] => ""
  | e0 :: rest =>
    "Start pattern matching on " ++ e0.to_string ++ "\n"
      ++ transcript_entries 0 rest env.derivation_history
      ++ "\nResult: " ++ (env.get_expr_unwrap).to_string

/-- The outcome of `fs::write`, supplied as an oracle: the interpreter is
parametric in what the file system does. -/
def FsWrite : Type := String → String → Except String Unit

/-- From `Env::write_to_file` in src/runtime.rs lines 134-157: build the
transcript and hand it to the file system. -/
def write_to_file (fsW : FsWrite) (env : Env) (file_path : String) :
    Except String Unit :=
  fsW file_path (transcript env)

/-- One iteration of the statement dispatch of `Env::interpret` in
src/runtime.rs lines 68-132, matching on the statement and the matching
flag.  The returned pair carries the mutated state and the error with which
the source would return early, if any.  Note the order in the EndStmt arm,
taken from the source: the write error propagates with `?` BEFORE the
history and derivation are cleared and the mode reset, so a failed write
leaves the session intact. -/
def interpret_stmt (fsW : FsWrite) (env : Env) (stmt : Stmt) :
    Env × Option String :=
  match stmt, env.is_matching with
  | .ExprStmt _, true =>
    ({ env with warnings := env.warnings ++ [.ExprHasNoEffect] }, none)
  | .ApplyStmt _ _, false =>
    ({ env with warnings := env.warnings ++ [.ApplyRuleNoEffect] }, none)
  | .RuleStmt _ _ _, false =>
    ({ env with warnings := env.warnings ++ [.InLineRuleNoEffect] }, none)
  | .EndStmt _, false =>
    ({ env with warnings := env.warnings ++ [.EndStmtHasNoEffect] }, none)
  | .ExprStmt expr, false =>
    ({ env with is_matching := true, history := env.history ++ [expr] }, none)
  | .ApplyStmt iden depth, true =>
    match rulesGet env.rules iden with
    | some (left, right) =>
      match ast_traverse_match env.get_expr_unwrap left right depth with
      | .ok e =>
        ({ env with
            history := env.history ++ [e]
            derivation_history := env.derivation_history ++ [(left, right, depth)] },
         none)
      | .error err => (env, some err)
    | none =>
      ({ env with warnings := env.warnings ++ [.RuleDoesNotExist iden] }, none)
  | .DefineStmt iden left right, _ =>
    ({ env with rules := rulesInsert env.rules iden (left, right) }, none)
  | .RuleStmt left right depth, true =>
    match ast_traverse_match env.get_expr_unwrap left right depth with
    | .ok e =>
      ({ env with
          history := env.history ++ [e]
          derivation_history := env.derivation_history ++ [(left, right, depth)] },
       none)
    | .error err => (env, some err)
  | .EndStmt path, true =>
    match path with
    | some file_path =>
      match write_to_file fsW env file_path with
      | .ok _ =>
        ({ env with history := [], derivation_history := [], is_matching := false },
         none)
      | .error err => (env, some err)
    | none =>
      ({ env with history := [], derivation_history := [], is_matching := false },
       none)

/-- The statement loop of `Env::interpret`: statements are processed in
order and the first error returns early with the state mutated so far. -/
def interpret (fsW : FsWrite) (env : Env) : List Stmt → Env × Option String
  | [] => (env, none)
  | s :: rest =>
    match interpret_stmt fsW env s with
    | (env', none) => interpret fsW env' rest
    | (env', some e) => (env', some e)

/-- States reachable by the session machine: the initial state, one
statement processed by the dispatch (with any file-system outcome), or one
REPL undo. -/
inductive Reachable : Env → Prop where
  | init : Reachable Env.new
  | step (fsW : FsWrite) (stmt : Stmt) {env : Env} :
      Reachable env → Reachable (interpret_stmt fsW env stmt).1
  | undo {env : Env} : Reachable env → Reachable env.pop_expr

/-- Tokens, from the `Token` enum in src/lexer.rs lines 7-27. -/
inductive Token where
  | Identifier (s : String)
  | Number (n : Nat)
  | Path (s : String)
  | OpenParen
  | CloseParen
  | Comma
  | Derive
  | Define
  | As
  | End
  | At
  | Add
  | Sub
  | Mul
  | Div
deriving DecidableEq, Repr

mutual

/-- From `Parser::parse_term` in src/parser.rs lines 227-239: a factor
followed by a left-associative chain of + or -, desugared to "add"/"sub"
functors (the functor head is `Token::to_string` of the operator). -/
def parse_term (fuel : Nat) (ts : List Token) :
    Except String (Expr × List Token) :=
  match fuel with
  | 0 => .error "fuel"
  | fuel + 1 =>
    match parse_factor fuel ts with
    | .error e => .error e
    | .ok (left, ts') => parse_term_loop fuel left ts'
termination_by structural fuel

/-- The while-loop of `parse_term`. -/
def parse_term_loop (fuel : Nat) (left : Expr) (ts : List Token) :
    Except String (Expr × List Token) :=
  match fuel with
  | 0 => .error "fuel"
  | fuel + 1 =>
    match ts with
    | .Add :: rest =>
      match parse_factor fuel rest with
      | .error e => .error e
      | .ok (right, ts') =>
        parse_term_loop fuel (.Functor "add" [left, right]) ts'
    | .Sub :: rest =>
      match parse_factor fuel rest with
      | .error e => .error e
      | .ok (right, ts') =>
        parse_term_loop fuel (.Functor "sub" [left, right]) ts'
    | _ => .ok (left, ts)
termination_by structural fuel

/-- From `Parser::parse_factor` in src/parser.rs lines 241-253: an atom
followed by a left-associative chain of * or /, desugared to "mul"/"div"
functors. -/
def parse_factor (fuel : Nat) (ts : List Token) :
    Except String (Expr × List Token) :=
  match fuel with
  | 0 => .error "fuel"
  | fuel + 1 =>
    match parse_expr fuel ts with
    | .error e => .error e
    | .ok (left, ts') => parse_factor_loop fuel left ts'
termination_by structural fuel

/-- The while-loop of `parse_factor`. -/
def parse_factor_loop (fuel : Nat) (left : Expr) (ts : List Token) :
    Except String (Expr × List Token) :=
  match fuel with
  | 0 => .error "fuel"
  | fuel + 1 =>
    match ts with
    | .Mul :: rest =>
      match parse_expr fuel rest with
      | .error e => .error e
      | .ok (right, ts') =>
        parse_factor_loop fuel (.Functor "mul" [left, right]) ts'
    | .Div :: rest =>
      match parse_expr fuel rest with
      | .error e => .error e
      | .ok (right, ts') =>
        parse_factor_loop fuel (.Functor "div" [left, right]) ts'
    | _ => .ok (left, ts)
termination_by structural fuel

/-- From `Parser::parse_expr` in src/parser.rs lines 255-318: an open
parenthesis starts a "group" functor; an identifier followed by an open
parenthesis is a functor; a bare identifier optionally followed by the
keyword "at" and a number is a Variable carrying that number as its depth
marker (a missing number after "at" is an error); a number is a Variable
whose name is its decimal string. -/
def parse_expr (fuel : Nat) (ts : List Token) :
    Except String (Expr × List Token) :=
  match fuel with
  | 0 => .error "fuel"
  | fuel + 1 =>
    match ts with
    | .OpenParen :: rest =>
      match parse_functor_args fuel rest [] with
      | .error e => .error e
      | .ok (args, ts') => .ok (.Functor "group" args, ts')
    | .Identifier s :: .OpenParen :: rest =>
      match parse_functor_args fuel rest [] with
      | .error e => .error e
      | .ok (args, ts') => .ok (.Functor s args, ts')
    | .Identifier s :: .At :: .Number n :: rest =>
      .ok (.Variable s (some n), rest)
    | .Identifier _ :: .At :: _ =>
      .error "expected number after at-keyword"
    | .Identifier s :: rest =>
      .ok (.Variable s none, rest)
    | .Number n :: rest =>
      .ok (.Variable (toString n) none, rest)
    | _ => .error "unexpected token"
termination_by structural fuel

/-- From `Parser::parse_functor_args` in src/parser.rs lines 320-338
(called with the open parenthesis already consumed): terms accumulated
until the closing parenthesis, each optionally followed by a comma. -/
def parse_functor_args (fuel : Nat) (ts : List Token) (acc : List Expr) :
    Except String (List Expr × List Token) :=
  match fuel with
  | 0 => .error "fuel"
  | fuel + 1 =>
    match ts with
    | .CloseParen :: rest => .ok (acc, rest)
    | _ =>
      match parse_term fuel ts with
      | .error e => .error e
      | .ok (e, ts') =>
        match ts' with
        | .Comma :: ts'' => parse_functor_args fuel ts'' (acc ++ [e])
        | _ => parse_functor_args fuel ts' (acc ++ [e])
termination_by structural fuel

end

/-- From `Parser::parse_rule` in src/parser.rs lines 202-225: parse a term;
when followed by the derive symbol, parse the right side and require
"at NUMBER", producing an in-line `RuleStmt`; otherwise the bare term
becomes an `ExprStmt`. -/
def parse_rule (fuel : Nat) (ts : List Token) :
    Except String (Stmt × List Token) :=
  match parse_term fuel ts with
  | .error e => .error e
  | .ok (left, ts') =>
    match ts' with
    | .Derive :: ts'' =>
      match parse_term fuel ts'' with
      | .error e => .error e
      | .ok (right, ts3) =>
        match ts3 with
        | .At :: .Number n :: ts4 => .ok (.RuleStmt left right n, ts4)
        | .At :: _ => .error "expected a depth value after in-line rule"
        | _ => .error "expected at-keyword"
    | _ => .ok (.ExprStmt left, ts')

/-- The numbered blocks of the transcript as the claim describes them:
starting at index 1, each rewrite step contributes a blank line, the line
"i. Applying rule: L => R at depth d, results in:" and the resulting
expression on the next line indented four spaces; after the last step a
blank line and the line "Result: e" where e is the final expression
(threaded through, so with no steps it is the anchor).  Modelled from the
spec: transcript export format of the End statement. -/
def spec_transcript_go : Nat → Expr → List (Expr × Expr × Expr × Nat) → String
  | _, cur, [] => "\n\nResult: " ++ cur.to_string
  | i, _, (e, lhs, rhs, depth) :: rest =>
    "\n\n" ++ toString i ++ ". Applying rule: " ++ lhs.to_string ++ " => "
      ++ rhs.to_string ++ " at depth " ++ toString depth ++ ", results in:\n    "
      ++ e.to_string
      ++ spec_transcript_go (i + 1) e rest

/-- The whole transcript as the claim describes it: the line
"Start pattern matching on e0" followed by the numbered blocks.  Each step
is given as (resulting expression, L, R, d).  Modelled from the spec:
transcript export format of the End statement. -/
def spec_transcript (e0 : Expr) (steps : List (Expr × Expr × Expr × Nat)) :
    String :=
  "Start pattern matching on " ++ e0.to_string ++ spec_transcript_go 1 e0 steps

mutual

/-- An expression none of whose variables carries a parser-side depth
marker. -/
def depth_free : Expr → Bool
  | .Variable _ d => d.isNone
  | .Functor _ args => depth_free_list args
termination_by structural e => e

/-- Whether every expression in a list is depth-marker-free. -/
def depth_free_list : List Expr → Bool
  | [] => true
  | a :: as => depth_free a && depth_free_list as
termination_by structural l => l

end

/-- Whether the pattern L structurally matches the subject C at the root,
in the sense of the specification of the matcher: two Variables match when
their names agree; two Functors match when heads and arities agree and the
binding table can be filled; a Functor pattern never matches a Variable
subject; a bare Variable pattern fires on a Functor subject exactly when
some immediate argument is a Variable of that name. -/
def matches_at_root (c l : Expr) : Bool :=
  match c, l with
  | .Variable ci _, .Variable li _ => ci = li
  | .Variable _ _, .Functor _ _ => false
  | .Functor ci cargs, .Functor li largs =>
    ci = li ∧ cargs.length = largs.length ∧ (fill_pattern_mapping cargs largs []).1 = true
  | .Functor _ cargs, .Variable li _ =>
    cargs.any (fun a =>
      match a with
      | .Variable ai _ => ai = li
      | .Functor _ _ => false)

/-- The invariant that actually holds at every statement boundary: the mode
is Global exactly when the history is empty, and the derivation is one
shorter than the history (with Nat truncation, so both are empty
together). -/
def EnvInv (env : Env) : Prop :=
  (env.is_matching = false ↔ env.history = []) ∧
  env.derivation_history.length = env.history.length - 1

/-- Induction over expressions with the inductive hypothesis available for
every member of a functor argument list. -/
theorem Expr.my_ind (P : Expr → Prop)
    (hv : ∀ i d, P (.Variable i d))
    (hf : ∀ i args, (∀ a ∈ args, P a) → P (.Functor i args)) :
    ∀ e, P e
  | .Variable i d => hv i d
  | .Functor i args => hf i args (fun a ha => Expr.my_ind P hv hf a)
termination_by e => sizeOf e
decreasing_by
  simp_wf
  have := List.sizeOf_lt_of_mem ha
  omega

/-- The argument loop of the substituter succeeds whenever the substituter
succeeds on every argument. -/
theorem construct_rhs_list_ok (args : List Expr) (t : List (Expr × Expr))
    (h : ∀ a ∈ args, ∀ t', ∃ e, construct_rhs a t' = .ok e) :
    ∃ es, construct_rhs_list args t = .ok es := by
  induction args with
  | nil => exact ⟨[], by simp [construct_rhs_list]⟩
  | cons a rest ih =>
    obtain ⟨e, he⟩ := h a (by simp) t
    obtain ⟨es, hes⟩ := ih (fun x hx t' => h x (by simp [hx]) t')
    exact ⟨e :: es, by simp [construct_rhs_list, he, hes]⟩

/-- The substituter never fails. -/
theorem construct_rhs_ok (r : Expr) : ∀ t, ∃ e, construct_rhs r t = .ok e := by
  induction r using Expr.my_ind with
  | hv i d =>
    intro t
    cases h : tableGet t (.Variable i d) with
    | none => exact ⟨.Variable i none, by simp [construct_rhs, h]⟩
    | some v => exact ⟨v, by simp [construct_rhs, h]⟩
  | hf i args ih =>
    intro t
    obtain ⟨es, hes⟩ := construct_rhs_list_ok args t ih
    exact ⟨.Functor i es, by simp [construct_rhs, hes]⟩

/-- Pointwise description of the argument loop of the substituter. -/
theorem construct_rhs_list_spec (args : List Expr) (t : List (Expr × Expr)) :
    ∃ es, construct_rhs_list args t = .ok es ∧ es.length = args.length ∧
      ∀ i (h1 : i < args.length) (h2 : i < es.length),
        construct_rhs (args.get ⟨i, h1⟩) t = .ok (es.get ⟨i, h2⟩) := by
  induction args with
  | nil =>
    refine ⟨[], by simp [construct_rhs_list], by simp, ?_⟩
    intro i h1
    simp at h1
  | cons a rest ih =>
    obtain ⟨e, he⟩ := construct_rhs_ok a t
    obtain ⟨es, hes, hlen, hpt⟩ := ih
    refine ⟨e :: es, by simp [construct_rhs_list, he, hes], by simp [hlen], ?_⟩
    intro i h1 h2
    cases i with
    | zero => simpa using he
    | succ n => simpa using hpt n (by simpa using h1) (by simpa using h2)

/-- The matcher never fails. -/
theorem match_patterns_ok (c l r : Expr) : ∃ e, match_patterns c l r = .ok e := by
  cases c with
  | Variable ci cd =>
    cases l with
    | Variable li ld => by_cases h : ci = li <;> simp [match_patterns, h]
    | Functor li la => exact ⟨.Variable ci cd, rfl⟩
  | Functor ci ca =>
    cases l with
    | Variable li ld => exact ⟨_, rfl⟩
    | Functor li la =>
      by_cases h : ci = li ∧ ca.length = la.length
      · rcases hfp : fill_pattern_mapping ca la [] with ⟨b, tbl⟩
        cases b with
        | true =>
          obtain ⟨e, he⟩ := construct_rhs_ok r tbl
          exact ⟨e, by simp [match_patterns, h, hfp, he]⟩
        | false => exact ⟨.Functor ci ca, by simp [match_patterns, h, hfp]⟩
      · exact ⟨.Functor ci ca, by simp [match_patterns, h]⟩

/-- Pointwise description of the argument loop of the traversal, given that
the traversal succeeds on every argument. -/
theorem ast_list_spec (args : List Expr) (l r : Expr) (d : Nat)
    (h : ∀ a, ∃ e, ast_traverse_match a l r d = .ok e) :
    ∃ es, ast_traverse_match_list args l r d = .ok es ∧ es.length = args.length ∧
      ∀ i (h1 : i < args.length) (h2 : i < es.length),
        ast_traverse_match (args.get ⟨i, h1⟩) l r d = .ok (es.get ⟨i, h2⟩) := by
  induction args with
  | nil =>
    refine ⟨[], by simp [ast_traverse_match_list], by simp, ?_⟩
    intro i h1
    simp at h1
  | cons a rest ih =>
    obtain ⟨e, he⟩ := h a
    obtain ⟨es, hes, hlen, hpt⟩ := ih
    refine ⟨e :: es, by simp [ast_traverse_match_list, he, hes], by simp [hlen], ?_⟩
    intro i h1 h2
    cases i with
    | zero => simpa using he
    | succ n => simpa using hpt n (by simpa using h1) (by simpa using h2)

/-- The traversal never fails. -/
theorem ast_ok : ∀ (d : Nat) (c l r : Expr), ∃ e, ast_traverse_match c l r d = .ok e := by
  intro d
  induction d with
  | zero =>
    intro c l r
    obtain ⟨e, he⟩ := match_patterns_ok c l r
    refine ⟨e, ?_⟩
    rw [ast_traverse_match.eq_def]
    simpa using he
  | succ n ih =>
    intro c l r
    cases c with
    | Variable i dd => exact ⟨.Variable i dd, by simp [ast_traverse_match]⟩
    | Functor i args =>
      obtain ⟨es, hes, -, -⟩ := ast_list_spec args l r n (fun a => ih a l r)
      exact ⟨.Functor i es, by simp [ast_traverse_match, hes]⟩

/-- Every member of a depth-marker-free list is depth-marker-free. -/
theorem depth_free_list_mem (args : List Expr) (h : depth_free_list args = true) :
    ∀ a ∈ args, depth_free a = true := by
  induction args with
  | nil => intro a ha; simp at ha
  | cons b rest ih =>
    intro a ha
    simp only [depth_free_list, Bool.and_eq_true] at h
    rcases List.mem_cons.mp ha with rfl | hmem
    · exact h.1
    · exact ih h.2 a hmem

/-- Every immediate argument of a depth-marker-free functor is
depth-marker-free. -/
theorem depth_free_args (i : String) (args : List Expr)
    (h : depth_free (.Functor i args) = true) : ∀ a ∈ args, depth_free a = true :=
  depth_free_list_mem args (by rwa [depth_free] at h)

/-- C1 as frozen fails on the code: for the subject Variable "x" carrying
the parser-side depth marker 1 and the non-matching pattern Variable "y",
the matcher does not return the subject unchanged - it rebuilds the
variable from its name alone, so the returned Variable has no depth
marker. -/
theorem C1_counterexample :
    matches_at_root (.Variable "x" (some 1)) (.Variable "y" none) = false ∧
    match_patterns (.Variable "x" (some 1)) (.Variable "y" none) (.Variable "z" none)
      = .ok (.Variable "x" none) ∧
    (Expr.Variable "x" none) ≠ (Expr.Variable "x" (some 1)) :=
  ⟨by decide, rfl, by decide⟩

/-- List map is the identity when the function fixes every member. -/
theorem list_map_id_of_mem {α : Type} (l : List α) (f : α → α)
    (h : ∀ a ∈ l, f a = a) : l.map f = l := by
  induction l with
  | nil => rfl
  | cons a rest ih => simp [h a (by simp), ih (fun x hx => h x (by simp [hx]))]

/-- C1 amended: for every subject C carrying no parser-side depth markers,
every pattern L that does not structurally match C at the root and every
template R, the matcher returns C itself unchanged; without that proviso a
Variable the matcher rebuilds loses its depth marker.  Moreover the
operation never fails on any input. -/
theorem C1_identity_on_no_match :
    (∀ (c l r : Expr), depth_free c = true → matches_at_root c l = false →
        match_patterns c l r = .ok c) ∧
    (∀ (c l r : Expr), ∃ e, match_patterns c l r = .ok e) := by
  constructor
  · intro c l r hdf hnm
    cases c with
    | Variable ci cd =>
      cases l with
      | Variable li ld =>
        have hne : ¬ ci = li := by simpa [matches_at_root] using hnm
        have hcd : cd = none := by
          cases cd <;> simp [depth_free, Option.isNone] at hdf ⊢
        subst hcd
        simp [match_patterns, hne]
      | Functor li la => simp [match_patterns]
    | Functor ci ca =>
      cases l with
      | Variable li ld =>
        have hno : ∀ a ∈ ca, (match a with
            | Expr.Variable ai _ => decide (ai = li)
            | Expr.Functor _ _ => false) = false := by
          simpa [matches_at_root, List.any_eq_false] using hnm
        have hdfa := depth_free_args ci ca hdf
        have hmap : ca.map (fun arg =>
            match arg with
            | Expr.Variable iden _ => if iden = li then r else Expr.Variable iden none
            | Expr.Functor i as => Expr.Functor i as) = ca := by
          apply list_map_id_of_mem
          intro a ha
          cases a with
          | Variable ai ad =>
            have h1 : ¬ ai = li := by simpa using hno _ ha
            have h2 : ad = none := by
              have h3 := hdfa _ ha
              cases ad <;> simp [depth_free, Option.isNone] at h3 ⊢
            subst h2
            simp [h1]
          | Functor fi fa => rfl
        simp [match_patterns, hmap]
      | Functor li la =>
        by_cases h : ci = li ∧ ca.length = la.length
        · rcases hfp : fill_pattern_mapping ca la [] with ⟨b, tbl⟩
          cases b with
          | true =>
            have hcon : ¬ (ci = li ∧ ca.length = la.length ∧
                (fill_pattern_mapping ca la []).1 = true) := by
              simpa [matches_at_root] using hnm
            exact absurd ⟨h.1, h.2, by rw [hfp]⟩ hcon
          | false => simp [match_patterns, h, hfp]
        · simp [match_patterns, h]
  · exact match_patterns_ok

/-- Witness for the amended C1 at a concrete input: the marker-free subject
Variable "x" against the non-matching pattern Variable "y" comes back
unchanged. -/
theorem C1_identity_witness :
    depth_free (.Variable "x" none) = true ∧
    matches_at_root (.Variable "x" none) (.Variable "y" none) = false ∧
    match_patterns (.Variable "x" none) (.Variable "y" none) (.Variable "z" none)
      = .ok (.Variable "x" none) :=
  ⟨by decide, by decide,
    C1_identity_on_no_match.1 (.Variable "x" none) (.Variable "y" none)
      (.Variable "z" none) (by decide) (by decide)⟩

/-- C2: the depth-controlled traversal agrees with the matcher at depth 0;
at positive depth a Variable subject is returned unchanged (its depth
marker included), and a Functor subject keeps its head while its i-th
argument becomes the traversal of the original i-th argument at depth
d - 1, in left-to-right order; the traversal never fails. -/
theorem C2_traverse_depth_behaviour :
    (∀ (c l r : Expr), ast_traverse_match c l r 0 = match_patterns c l r) ∧
    (∀ (v : String) (dep : Option Nat) (l r : Expr) (d : Nat), 0 < d →
        ast_traverse_match (.Variable v dep) l r d = .ok (.Variable v dep)) ∧
    (∀ (hd : String) (args : List Expr) (l r : Expr) (d : Nat), 0 < d →
        ∃ args', ast_traverse_match (.Functor hd args) l r d = .ok (.Functor hd args') ∧
          args'.length = args.length ∧
          ∀ i (h1 : i < args.length) (h2 : i < args'.length),
            ast_traverse_match (args.get ⟨i, h1⟩) l r (d - 1) = .ok (args'.get ⟨i, h2⟩)) := by
  refine ⟨?_, ?_, ?_⟩
  · intro c l r
    rw [ast_traverse_match.eq_def]
    simp
  · intro v dep l r d hdpos
    rw [ast_traverse_match.eq_def]
    simp [Nat.pos_iff_ne_zero.mp hdpos]
  · intro hd args l r d hdpos
    obtain ⟨es, hes, hlen, hpt⟩ :=
      ast_list_spec args l r (d - 1) (fun a => ast_ok (d - 1) a l r)
    refine ⟨es, ?_, hlen, hpt⟩
    rw [ast_traverse_match.eq_def]
    simp [Nat.pos_iff_ne_zero.mp hdpos, hes]

/-- Witness for C2 at a concrete positive depth: at depth 1 a Variable
subject (here one carrying a depth marker) is returned unchanged. -/
theorem C2_traverse_depth_witness :
    0 < 1 ∧
    ast_traverse_match (.Variable "x" (some 2)) (.Variable "x" none)
        (.Variable "y" none) 1
      = .ok (.Variable "x" (some 2)) :=
  ⟨by decide,
    C2_traverse_depth_behaviour.2.1 "x" (some 2) (.Variable "x" none)
      (.Variable "y" none) 1 (by decide)⟩

/-- C3 as frozen fails on the code at its own example: applying the rule
x => t(x) at depth 0 to h(A, B) leaves h(A, B) unchanged - only immediate
Variable arguments NAMED x are replaced by a clone of the template, and
neither A nor B is named x - whereas the claim says the result is
h(t(A), t(B)). -/
theorem C3_counterexample :
    match_patterns (.Functor "h" [.Variable "A" none, .Variable "B" none])
        (.Variable "x" none) (.Functor "t" [.Variable "x" none])
      = .ok (.Functor "h" [.Variable "A" none, .Variable "B" none]) ∧
    (Expr.Functor "h" [.Variable "A" none, .Variable "B" none]) ≠
      (.Functor "h" [.Functor "t" [.Variable "A" none], .Functor "t" [.Variable "B" none]]) :=
  ⟨rfl, by decide⟩

/-- C3 amended: for a Functor subject and a Variable pattern the matcher
returns the same head over a single-level map of the arguments in which an
immediate Variable argument whose name equals the pattern name becomes a
clone of the template, a Functor argument is kept as-is with no recursive
descent, and any other Variable argument keeps its name but loses its
parser-side depth marker; e.g. x => t(x) at depth 0 sends h(x, B) to
h(t(x), B), and leaves h(A, B) and h(g(x)) unchanged. -/
theorem C3_functor_subject_variable_pattern :
    (∀ (h : String) (args : List Expr) (li : String) (ld : Option Nat) (r : Expr),
        match_patterns (.Functor h args) (.Variable li ld) r
          = .ok (.Functor h (args.map (fun arg =>
              match arg with
              | .Variable ai _ => if ai = li then r else .Variable ai none
              | .Functor fi fa => .Functor fi fa)))) ∧
    match_patterns (.Functor "h" [.Variable "x" none, .Variable "B" none])
        (.Variable "x" none) (.Functor "t" [.Variable "x" none])
      = .ok (.Functor "h" [.Functor "t" [.Variable "x" none], .Variable "B" none]) ∧
    match_patterns (.Functor "h" [.Functor "g" [.Variable "x" none]])
        (.Variable "x" none) (.Functor "t" [.Variable "x" none])
      = .ok (.Functor "h" [.Functor "g" [.Variable "x" none]]) :=
  ⟨fun _ _ _ _ _ => rfl, rfl, rfl⟩

/-- C4 as frozen fails on the code: with the binding table mapping the
pattern node Variable "x" carrying depth marker 1 to Variable "A", the
template node Variable "x" without a marker is NOT found - the lookup
compares whole nodes, marker included - so the substituter returns the
template variable instead of a clone of the image "A". -/
theorem C4_counterexample :
    tableGet [(.Variable "x" (some 1), .Variable "A" none)] (.Variable "x" none)
      = none ∧
    construct_rhs (.Variable "x" none) [(.Variable "x" (some 1), .Variable "A" none)]
      = .ok (.Variable "x" none) ∧
    (Expr.Variable "x" none) ≠ (.Variable "A" none) :=
  ⟨rfl, rfl, by decide⟩

/-- C4 amended: the substituter looks a template Variable up as a whole
node - the parser-side depth marker participates in the key comparison;
when the node is present it returns a clone of its image, and otherwise it
returns a Variable with the same name and no depth marker (a marker on a
free template variable is dropped); on a Functor it returns the same head
with the pointwise substitutions of the arguments; the substituter never
fails. -/
theorem C4_substitute_behaviour :
    (∀ (i : String) (d : Option Nat) (t : List (Expr × Expr)),
        construct_rhs (.Variable i d) t
          = .ok ((tableGet t (.Variable i d)).getD (.Variable i none))) ∧
    (∀ (h : String) (args : List Expr) (t : List (Expr × Expr)),
        ∃ args', construct_rhs (.Functor h args) t = .ok (.Functor h args') ∧
          args'.length = args.length ∧
          ∀ i (h1 : i < args.length) (h2 : i < args'.length),
            construct_rhs (args.get ⟨i, h1⟩) t = .ok (args'.get ⟨i, h2⟩)) ∧
    (∀ (r : Expr) (t : List (Expr × Expr)), ∃ e, construct_rhs r t = .ok e) := by
  refine ⟨?_, ?_, construct_rhs_ok⟩
  · intro i d t
    cases h : tableGet t (.Variable i d) <;> simp [construct_rhs, h]
  · intro h args t
    obtain ⟨es, hes, hlen, hpt⟩ := construct_rhs_list_spec args t
    exact ⟨es, by simp [construct_rhs, hes], hlen, hpt⟩

/-- Indexing a non-empty list at its last position yields its last
element. -/
theorem get?_last_cons (x : Expr) (l : List Expr) :
    (x :: l).get? l.length = some (l.getLastD x) := by
  induction l generalizing x with
  | nil => rfl
  | cons y ys ih =>
    show (y :: ys).get? ys.length = some ((y :: ys).getLastD x)
    rw [List.getLastD_cons]
    exact ih y

/-- The current expression of a session whose history is e0 :: rest is the
last element of the history. -/
theorem get_expr_unwrap_cons (env : Env) (e0 : Expr) (rest : List Expr)
    (h : env.history = e0 :: rest) :
    env.get_expr_unwrap = rest.getLastD e0 := by
  unfold Env.get_expr_unwrap Env.get_expr
  rw [h]
  simp only [List.length_cons]
  rw [if_neg (by omega), Nat.add_sub_cancel, get?_last_cons]
  rfl

/-- One dispatched statement preserves the session invariant, whatever the
file system does. -/
theorem interpret_stmt_preserves_inv (fsW : FsWrite) (env : Env) (stmt : Stmt)
    (h : EnvInv env) : EnvInv (interpret_stmt fsW env stmt).1 := by
  obtain ⟨h1, h2⟩ := h
  have hglobal : env.is_matching = false → env.derivation_history = [] := by
    intro hm
    have hh := h1.mp hm
    have := h2
    rw [hh] at this
    simpa using List.length_eq_zero.mp (by simpa using this)
  cases stmt with
  | ExprStmt e =>
    cases hm : env.is_matching with
    | true =>
      refine ⟨?_, ?_⟩
      · simpa [interpret_stmt, hm] using h1
      · simpa [interpret_stmt, hm] using h2
    | false =>
      have hh : env.history = [] := h1.mp hm
      have hd := hglobal hm
      refine ⟨?_, ?_⟩
      · simp [interpret_stmt, hm, hh]
      · simp [interpret_stmt, hm, hh, hd]
  | ApplyStmt iden depth =>
    cases hm : env.is_matching with
    | false =>
      refine ⟨?_, ?_⟩
      · simpa [interpret_stmt, hm] using h1
      · simpa [interpret_stmt, hm] using h2
    | true =>
      cases hr : rulesGet env.rules iden with
      | none =>
        refine ⟨?_, ?_⟩
        · simpa [interpret_stmt, hm, hr] using h1
        · simpa [interpret_stmt, hm, hr] using h2
      | some lr =>
        obtain ⟨l, r⟩ := lr
        obtain ⟨e, he⟩ := ast_ok depth env.get_expr_unwrap l r
        have hne : env.history ≠ [] := by
          intro hh
          rw [h1.mpr hh] at hm
          cases hm
        have hpos : 0 < env.history.length := List.length_pos.mpr hne
        refine ⟨?_, ?_⟩
        · simp [interpret_stmt, hm, hr, he]
        · simp [interpret_stmt, hm, hr, he]
          omega
  | RuleStmt l r depth =>
    cases hm : env.is_matching with
    | false =>
      refine ⟨?_, ?_⟩
      · simpa [interpret_stmt, hm] using h1
      · simpa [interpret_stmt, hm] using h2
    | true =>
      obtain ⟨e, he⟩ := ast_ok depth env.get_expr_unwrap l r
      have hne : env.history ≠ [] := by
        intro hh
        rw [h1.mpr hh] at hm
        cases hm
      have hpos : 0 < env.history.length := List.length_pos.mpr hne
      refine ⟨?_, ?_⟩
      · simp [interpret_stmt, hm, he]
      · simp [interpret_stmt, hm, he]
        omega
  | DefineStmt iden l r =>
    cases hm : env.is_matching with
    | false =>
      refine ⟨?_, ?_⟩
      · simpa [interpret_stmt, hm] using h1
      · simpa [interpret_stmt, hm] using h2
    | true =>
      refine ⟨?_, ?_⟩
      · simpa [interpret_stmt, hm] using h1
      · simpa [interpret_stmt, hm] using h2
  | EndStmt path =>
    cases hm : env.is_matching with
    | false =>
      refine ⟨?_, ?_⟩
      · simpa [interpret_stmt, hm] using h1
      · simpa [interpret_stmt, hm] using h2
    | true =>
      cases path with
      | none => exact ⟨by simp [interpret_stmt, hm], by simp [interpret_stmt, hm]⟩
      | some fp =>
        cases hw : write_to_file fsW env fp with
        | ok u => exact ⟨by simp [interpret_stmt, hm, hw], by simp [interpret_stmt, hm, hw]⟩
        | error err =>
          refine ⟨?_, ?_⟩
          · simpa [interpret_stmt, hm, hw] using h1
          · simpa [interpret_stmt, hm, hw] using h2

/-- One undo preserves the session invariant. -/
theorem pop_expr_preserves_inv (env : Env) (h : EnvInv env) :
    EnvInv env.pop_expr := by
  obtain ⟨h1, h2⟩ := h
  by_cases hlen : env.history.length > 1
  · have hne : env.history ≠ [] := by
      intro hh
      rw [hh] at hlen
      simp at hlen
    have hm : env.is_matching = true := by
      cases hmm : env.is_matching
      · exact absurd (h1.mp hmm) hne
      · rfl
    refine ⟨?_, ?_⟩
    · simp only [Env.pop_expr, if_pos hlen]
      constructor
      · intro hf
        rw [hm] at hf
        cases hf
      · intro hnil
        have := congrArg List.length hnil
        simp [List.length_dropLast] at this
        omega
    · simp only [Env.pop_expr, if_pos hlen]
      simp only [List.length_dropLast]
      omega
  · simpa [Env.pop_expr, hlen] using ⟨h1, h2⟩

/-- C5 as frozen fails on the code: after the single well-formed statement
anchoring a session, the mode is Matching and the history non-empty while
the derivation is still empty, so the I1 chain "mode = Global iff history
empty iff derivation empty" is violated at its second link. -/
theorem C5_counterexample :
    let st := (interpret (fun _ _ => .ok ()) Env.new
      [.ExprStmt (.Variable "a" none)]).1
    st.is_matching = true ∧ st.history ≠ [] ∧ st.derivation_history = [] ∧
      ¬ (st.history = [] ↔ st.derivation_history = []) := by
  decide

/-- C5 amended: after every well-formed statement and after every undo, the
mode is Global exactly when the history is empty (the full I1 chain fails:
right after the anchor statement the derivation is empty while the mode is
Matching), and the derivation length equals max(0, history length - 1),
which is I2. -/
theorem C5_session_invariants (env : Env) (h : Reachable env) :
    (env.is_matching = false ↔ env.history = []) ∧
    env.derivation_history.length = max 0 (env.history.length - 1) := by
  have hinv : EnvInv env := by
    induction h with
    | init => exact ⟨by simp [Env.new], by simp [Env.new]⟩
    | step fsW stmt hr ih => exact interpret_stmt_preserves_inv fsW _ stmt ih
    | undo hr ih => exact pop_expr_preserves_inv _ ih
  exact ⟨hinv.1, by simpa [Nat.zero_max] using hinv.2⟩

/-- Witness for the amended C5: the invariant holds at a concrete reachable
state, one anchor statement and one undo away from the initial state. -/
theorem C5_session_invariants_witness :
    let st := ((interpret_stmt (fun _ _ => .ok ()) Env.new
      (.ExprStmt (.Variable "a" none))).1).pop_expr
    (st.is_matching = false ↔ st.history = []) ∧
    st.derivation_history.length = max 0 (st.history.length - 1) :=
  C5_session_invariants _
    (Reachable.undo (Reachable.step (fun _ _ => .ok ())
      (.ExprStmt (.Variable "a" none)) Reachable.init))

/-- C6 as frozen fails on the code: from a session state with two history
entries, an Apply statement naming an undefined rule is a warning no-op, so
the undo that follows pops a genuine history entry and the prior
(history, derivation) pair is NOT restored. -/
theorem C6_counterexample :
    let env0 : Env := { history := [.Variable "a" none, .Variable "b" none]
                        derivation_history := [(.Variable "l" none, .Variable "r" none, 0)]
                        is_matching := true, rules := [], warnings := [] }
    let env1 := (interpret_stmt (fun _ _ => .ok ()) env0 (.ApplyStmt "nope" 0)).1
    env0.is_matching = true ∧ 2 ≤ env0.history.length ∧
      env1.pop_expr.history ≠ env0.history := by
  decide

/-- C6 amended: from any session state with at least two history entries,
applying one in-line Rule statement - or one Apply statement whose rule
name IS present in the table - followed by one undo restores the prior
(history, derivation) pair exactly; and whenever the history has at most
one entry, undo is a no-op. -/
theorem C6_rewrite_then_undo (env : Env) (fsW : FsWrite) :
    (∀ (left right : Expr) (d : Nat),
      env.is_matching = true → 2 ≤ env.history.length →
      ((interpret_stmt fsW env (.RuleStmt left right d)).1.pop_expr.history
          = env.history ∧
        (interpret_stmt fsW env (.RuleStmt left right d)).1.pop_expr.derivation_history
          = env.derivation_history)) ∧
    (∀ (name : String) (d : Nat) (left right : Expr),
      env.is_matching = true → 2 ≤ env.history.length →
      rulesGet env.rules name = some (left, right) →
      ((interpret_stmt fsW env (.ApplyStmt name d)).1.pop_expr.history
          = env.history ∧
        (interpret_stmt fsW env (.ApplyStmt name d)).1.pop_expr.derivation_history
          = env.derivation_history)) ∧
    (env.history.length ≤ 1 → env.pop_expr = env) := by
  refine ⟨?_, ?_, ?_⟩
  · intro left right d hm hlen
    obtain ⟨e, he⟩ := ast_ok d env.get_expr_unwrap left right
    have hpos : 0 < env.history.length := by omega
    constructor
    · simp [interpret_stmt, hm, he, Env.pop_expr, hpos, List.dropLast_concat]
    · simp [interpret_stmt, hm, he, Env.pop_expr, hpos, List.dropLast_concat]
  · intro name d left right hm hlen hr
    obtain ⟨e, he⟩ := ast_ok d env.get_expr_unwrap left right
    have hpos : 0 < env.history.length := by omega
    constructor
    · simp [interpret_stmt, hm, hr, he, Env.pop_expr, hpos, List.dropLast_concat]
    · simp [interpret_stmt, hm, hr, he, Env.pop_expr, hpos, List.dropLast_concat]
  · intro hle
    simp [Env.pop_expr, Nat.not_lt.mpr hle]

/-- Witness for the amended C6: a concrete two-entry session where an
in-line rule application followed by undo restores the history and the
derivation, and a one-entry history on which undo is a no-op. -/
theorem C6_rewrite_then_undo_witness :
    let env0 : Env := { history := [.Variable "a" none, .Variable "b" none]
                        derivation_history := [(.Variable "l" none, .Variable "r" none, 0)]
                        is_matching := true, rules := [], warnings := [] }
    ((interpret_stmt (fun _ _ => .ok ()) env0
        (.RuleStmt (.Variable "b" none) (.Variable "c" none) 0)).1.pop_expr.history
      = env0.history ∧
     (interpret_stmt (fun _ _ => .ok ()) env0
        (.RuleStmt (.Variable "b" none) (.Variable "c" none) 0)).1.pop_expr.derivation_history
      = env0.derivation_history) :=
  (C6_rewrite_then_undo _ _).1 (.Variable "b" none) (.Variable "c" none) 0
    (by decide) (by decide)

/-- Glue between the entry loop of the source transcript and the claim-side
rendering: a leading newline, the zipped entries from index k, and the
final Result line on the last expression equal the claim-side blocks
numbered from k + 1. -/
theorem transcript_entries_spec (steps : List (Expr × Expr × Expr × Nat)) :
    ∀ (k : Nat) (cur : Expr),
    "\n" ++ transcript_entries k (steps.map (fun s => s.1))
        (steps.map (fun s => (s.2.1, s.2.2.1, s.2.2.2)))
      ++ "\nResult: " ++ ((steps.map (fun s => s.1)).getLastD cur).to_string
    = spec_transcript_go (k + 1) cur steps := by
  induction steps with
  | nil =>
    intro k cur
    show "\n" ++ "" ++ "\nResult: " ++ cur.to_string = "\n\nResult: " ++ cur.to_string
    simp only [String.append_assoc]
    rfl
  | cons s rest ih =>
    intro k cur
    obtain ⟨e, l, r, d⟩ := s
    simp only [List.map_cons, List.getLastD_cons]
    show "\n" ++ ("\n" ++ toString (k + 1) ++ ". Applying rule: " ++ l.to_string
        ++ " => " ++ r.to_string ++ " at depth " ++ toString d
        ++ ", results in:\n    " ++ e.to_string ++ "\n"
        ++ transcript_entries (k + 1) (rest.map (fun s => s.1))
            (rest.map (fun s => (s.2.1, s.2.2.1, s.2.2.2))))
      ++ "\nResult: " ++ ((rest.map (fun s => s.1)).getLastD e).to_string
    = "\n\n" ++ toString (k + 1) ++ ". Applying rule: " ++ l.to_string
        ++ " => " ++ r.to_string ++ " at depth " ++ toString d
        ++ ", results in:\n    " ++ e.to_string
        ++ spec_transcript_go (k + 1 + 1) e rest
    rw [← ih (k + 1) e]
    simp only [String.append_assoc]
    rfl

/-- The transcript the source builds for a session whose history is the
anchor followed by the step results, and whose derivation is the step
rules, is exactly the claim-side transcript. -/
theorem transcript_eq_spec (e0 : Expr) (steps : List (Expr × Expr × Expr × Nat))
    (env : Env)
    (hh : env.history = e0 :: steps.map (fun s => s.1))
    (hd : env.derivation_history = steps.map (fun s => (s.2.1, s.2.2.1, s.2.2.2))) :
    transcript env = spec_transcript e0 steps := by
  have hu : env.get_expr_unwrap = (steps.map (fun s => s.1)).getLastD e0 :=
    get_expr_unwrap_cons env e0 _ hh
  unfold transcript
  rw [hh, hd]
  show "Start pattern matching on " ++ e0.to_string ++ "\n"
      ++ transcript_entries 0 (steps.map (fun s => s.1))
          (steps.map (fun s => (s.2.1, s.2.2.1, s.2.2.2)))
      ++ "\nResult: " ++ env.get_expr_unwrap.to_string
    = spec_transcript e0 steps
  rw [hu]
  unfold spec_transcript
  rw [← transcript_entries_spec steps 0 e0]
  simp only [String.append_assoc]

/-- C7: processing End with a path in a session whose anchor is e0 and
whose rewrite steps produced the recorded expressions hands the file system
exactly the claimed transcript string - the start line on e0, then for each
step i (numbered from 1) a blank line, the line
"i. Applying rule: L => R at depth d, results in:" and the resulting
expression indented four spaces on the next line, and finally a blank line
and "Result: e" on the final expression; with zero steps the transcript is
just the start line, a blank line and the result line on the anchor.  On a
successful write the session resets; on a failed write the error is
returned. -/
theorem C7_transcript_format (fsW : FsWrite) (path : String) (e0 : Expr)
    (steps : List (Expr × Expr × Expr × Nat))
    (rules : List (String × (Expr × Expr))) (warns : List Warning) :
    interpret_stmt fsW
      { history := e0 :: steps.map (fun s => s.1)
        derivation_history := steps.map (fun s => (s.2.1, s.2.2.1, s.2.2.2))
        is_matching := true, rules := rules, warnings := warns }
      (.EndStmt (some path))
    = match fsW path (spec_transcript e0 steps) with
      | .ok _ =>
        ({ history := [], derivation_history := [], is_matching := false
           rules := rules, warnings := warns }, none)
      | .error err =>
        ({ history := e0 :: steps.map (fun s => s.1)
           derivation_history := steps.map (fun s => (s.2.1, s.2.2.1, s.2.2.2))
           is_matching := true, rules := rules, warnings := warns }, some err) := by
  have htr : transcript
      { history := e0 :: steps.map (fun s => s.1)
        derivation_history := steps.map (fun s => (s.2.1, s.2.2.1, s.2.2.2))
        is_matching := true, rules := rules, warnings := warns }
      = spec_transcript e0 steps :=
    transcript_eq_spec e0 steps _ rfl rfl
  cases hw : fsW path (spec_transcript e0 steps) with
  | ok u => simp [interpret_stmt, write_to_file, htr, hw]
  | error err => simp [interpret_stmt, write_to_file, htr, hw]

/-- C8 as frozen fails on the code: with a file system that rejects the
write, End with a path surfaces the error but the session is NOT reset -
the state is returned exactly as it was, still Matching with a non-empty
history - because the source propagates the write error before clearing
the history and derivation. -/
theorem C8_counterexample :
    let env0 : Env := { history := [.Variable "a" none], derivation_history := []
                        is_matching := true, rules := [], warnings := [] }
    let res := interpret_stmt (fun _ _ => .error "boom") env0 (.EndStmt (some "out"))
    res.2 = some "boom" ∧ res.1 = env0 ∧ res.1.is_matching = true ∧
      res.1.history ≠ [] := by
  decide

/-- C8 amended: when End(path) is processed in Matching and writing the
transcript fails, the error is surfaced to the caller and the session is
NOT reset - history, derivation, mode, rules and warnings are all exactly
as before the statement (the reset happens only when the write
succeeds). -/
theorem C8_end_write_failure (fsW : FsWrite) (env : Env) (path err : String)
    (hm : env.is_matching = true)
    (hw : fsW path (transcript env) = .error err) :
    interpret_stmt fsW env (.EndStmt (some path)) = (env, some err) := by
  simp [interpret_stmt, hm, write_to_file, hw]

/-- Witness for the amended C8 at a concrete session and a file system that
always fails. -/
theorem C8_end_write_failure_witness :
    interpret_stmt (fun _ _ => .error "boom")
      { history := [.Variable "a" none], derivation_history := []
        is_matching := true, rules := [], warnings := [] }
      (.EndStmt (some "out"))
    = ({ history := [.Variable "a" none], derivation_history := []
         is_matching := true, rules := [], warnings := [] }, some "boom") :=
  C8_end_write_failure (fun _ _ => .error "boom") _ "out" "boom" rfl rfl

/-- C9 fails on the code: a bare identifier followed by the at-keyword and
a number parses as ExprStmt of a Variable carrying the number as its depth
marker - the `Stmt` enum of src/parser.rs has no Apply variant and the
parser never produces one - and in Matching state the interpreter
dispatches ExprStmt to the ExprHasNoEffect warning, leaving history,
derivation and rules untouched even though a rule of that name is defined.
The ApplyStmt arm of the interpreter that would apply the rule is
unreachable from the parser. -/
theorem C9_bare_apply_is_inert :
    (∀ (s : String) (n : Nat),
      parse_rule 9 [.Identifier s, .At, .Number n]
        = .ok (.ExprStmt (.Variable s (some n)), [])) ∧
    (let env1 : Env := { history := [.Functor "f" [.Variable "A" none]]
                         derivation_history := []
                         is_matching := true
                         rules := [("g", (.Functor "f" [.Variable "x" none],
                                          .Functor "h" [.Variable "x" none]))]
                         warnings := [] }
     interpret_stmt (fun _ _ => .ok ()) env1 (.ExprStmt (.Variable "g" (some 0)))
       = ({ env1 with warnings := [.ExprHasNoEffect] }, none)) :=
  ⟨fun _ _ => rfl, rfl⟩

/-- C10: an Apply statement processed in Matching whose rule name is absent
from the rule table appends the RuleDoesNotExist warning carrying that name
and leaves everything else - history, derivation, mode and the rule
table - exactly as before, with no error. -/
theorem C10_apply_unknown_rule (fsW : FsWrite) (env : Env) (name : String)
    (d : Nat) (hm : env.is_matching = true)
    (hr : rulesGet env.rules name = none) :
    interpret_stmt fsW env (.ApplyStmt name d)
      = ({ env with warnings := env.warnings ++ [.RuleDoesNotExist name] }, none) := by
  simp [interpret_stmt, hm, hr]

/-- Witness for C10 at a concrete session whose rule table lacks the
applied name. -/
theorem C10_apply_unknown_rule_witness :
    interpret_stmt (fun _ _ => .ok ())
      { history := [.Variable "a" none], derivation_history := []
        is_matching := true, rules := [], warnings := [] }
      (.ApplyStmt "nope" 0)
    = ({ history := [.Variable "a" none], derivation_history := []
         is_matching := true, rules := [], warnings := [.RuleDoesNotExist "nope"] },
       none) :=
  C10_apply_unknown_rule (fun _ _ => .ok ()) _ "nope" 0 rfl rfl

end Raxio
